import Mathlib

/-!
Verification of the plays96 torrent streaming gateway.

This file gives a shallow embedding of the parts of the repository that the
claims concern, and settles each claim against it.  Python strings are
modelled as `List Char`, Python dicts holding file metadata as a structure of
optional fields (absent key = `none`), datetimes as natural numbers of
seconds, and the libtorrent session/handle as explicit state records.
External library behaviour (libtorrent) is modelled at the granularity the
source relies on: a session is keyed by infohash, `file_progress` is the sum
of the bytes of a file inside completed pieces, and piece deadlines are a set
of piece indices.
-/

namespace Plays96

/-! ## Python string primitives (over `List Char`) -/

/-- Model of Python's `str.lower()`. -/
def lowerChars (s : List Char) : List Char := s.map Char.toLower

/-- Model of Python's `str.endswith(suffix)`. -/
def endsWithChars (s suff : List Char) : Bool := List.isSuffixOf suff s

/-! ## File-entry dictionaries

The repository stores file metadata in plain dicts.  Different modules build
them with different key sets:
* `app.py` (alert listener): keys `index`, `name`, `size`, `isVideo`;
* `src/api/streaming.py` (playlist fallback): keys `index`, `name`, `size`,
  `progress`, `is_video`;
* `src/background.py` (`to_dict`): keys `path`, `size`, `offset`.
A `PyFile` carries every key that occurs anywhere, each optional except
`size` (all builders set `size`, always a nonnegative libtorrent file size).
-/

structure PyFile where
  index : Option Nat := none
  name : Option (List Char) := none
  path : Option (List Char) := none
  size : Nat := 0
  offset : Option Nat := none
  isVideo : Option Bool := none
  is_video : Option Bool := none
  progress : Option Nat := none
  deriving DecidableEq, Repr

/-! ## `src/utils.py`: `get_largest_video_file` -/

/-- Loop of `get_largest_video_file` (src/utils.py lines 73-81): iterate over
the files, keeping the current best and `max_size` (initially `-1`); a file
qualifies when `file.get("isVideo")` is truthy and its size exceeds
`max_size` strictly. -/
def glvfLoop : List PyFile → Option PyFile → Int → Option PyFile
  | [], best, _ => best
  | f :: rest, best, maxSize =>
    if f.isVideo = some true ∧ maxSize < (f.size : Int) then
      glvfLoop rest (some f) (f.size : Int)
    else
      glvfLoop rest best maxSize

/-- `get_largest_video_file(files)` from src/utils.py lines 73-81. -/
def get_largest_video_file (files : List PyFile) : Option PyFile :=
  glvfLoop files none (-1)

/-! ## Video extension classification -/

/-- Extension list used by both alert listeners and the playlist fallback:
`['.mp4', '.mkv', '.avi', '.mov']` (app.py line 124, streaming.py line 52). -/
def extsCode : List (List Char) := [".mp4".data, ".mkv".data, ".avi".data, ".mov".data]

/-- Model of `any(path.lower().endswith(ext) for ext in ['.mp4', '.mkv',
'.avi', '.mov'])`, the video test of app.py line 124 and streaming.py
line 52. -/
def isVideoPath (nm : List Char) : Bool :=
  extsCode.any (fun e => endsWithChars (lowerChars nm) e)

/-- The spec-side predicate: the lowercased name ends in a dot followed by
one of the given extension stems. -/
def hasVideoExt (stems : List String) (nm : List Char) : Prop :=
  ∃ e ∈ stems, endsWithChars (lowerChars nm) ('.' :: e.data) = true

instance (stems : List String) (nm : List Char) : Decidable (hasVideoExt stems nm) := by
  unfold hasVideoExt; infer_instance

/-- File list built by the app.py alert listener on `metadata_received`
(app.py lines 117-125): entry `i` gets keys `index`, `name`, `size` and
`isVideo` computed by the extension test.  Input: `(path, size)` per file. -/
def buildFilesApp : Nat → List (List Char × Nat) → List PyFile
  | _, [] => []
  | i, e :: rest =>
    { index := some i, name := some e.1, size := e.2,
      isVideo := some (isVideoPath e.1) } :: buildFilesApp (i + 1) rest

/-- File list built by the playlist handler's metadata fallback
(src/api/streaming.py lines 44-53): entry `i` gets keys `index`, `name`,
`size`, `progress` and `is_video` (lowercase key) computed by the extension
test. -/
def buildFilesFallback : Nat → List (List Char × Nat) → List PyFile
  | _, [] => []
  | i, e :: rest =>
    { index := some i, name := some e.1, size := e.2, progress := some 0,
      is_video := some (isVideoPath e.1) } :: buildFilesFallback (i + 1) rest

/-- File list built by the background alert listener on `metadata_received`
(src/background.py line 41 with `to_dict` of lines 137-142): entries carry
only `path`, `size` and `offset` and no video flag at all.
Input: `(path, size, offset)` per file. -/
def buildFilesBackground (entries : List (List Char × Nat × Nat)) : List PyFile :=
  entries.map (fun e => { path := some e.1, size := e.2.1, offset := some e.2.2 })

/-! ## Characterization of the `get_largest_video_file` loop -/

/-- When no entry carries a truthy `isVideo` key, the loop never updates its
accumulator. -/
theorem glvfLoop_of_no_video (l : List PyFile) :
    ∀ (best : Option PyFile) (m : Int),
    (∀ f ∈ l, f.isVideo ≠ some true) → glvfLoop l best m = best := by
  induction l with
  | nil => intro best m _; rfl
  | cons f rest ih =>
    intro best m hno
    have hf : f.isVideo ≠ some true := hno f (List.mem_cons_self f rest)
    rw [glvfLoop, if_neg (by intro h; exact hf h.1)]
    exact ih best m (fun g hg => hno g (List.mem_cons_of_mem f hg))

/-- If the loop returns `none`, it started from `none` and no entry beat the
initial threshold. -/
theorem glvfLoop_eq_none (l : List PyFile) :
    ∀ (best : Option PyFile) (m : Int), glvfLoop l best m = none →
    best = none ∧ ∀ f ∈ l, f.isVideo = some true → (f.size : Int) ≤ m := by
  induction l with
  | nil =>
    intro best m h
    exact ⟨h, by simp⟩
  | cons f rest ih =>
    intro best m h
    by_cases hg : f.isVideo = some true ∧ m < (f.size : Int)
    · rw [glvfLoop, if_pos hg] at h
      have hb := (ih _ _ h).1
      exact absurd hb (by simp)
    · rw [glvfLoop, if_neg hg] at h
      obtain ⟨hb, hall⟩ := ih _ _ h
      refine ⟨hb, ?_⟩
      intro g hgmem hv
      rcases List.mem_cons.mp hgmem with rfl | hgmem'
      · by_contra hlt
        exact hg ⟨hv, lt_of_not_ge hlt⟩
      · exact hall g hgmem' hv

/-- If the loop returns `some f`, either the accumulator already held `f` and
nothing in the list beat the threshold, or `f` occurs in the list, beats the
threshold, strictly beats every qualifying entry before it, and is at least
as large as every qualifying entry after it. -/
theorem glvfLoop_eq_some (l : List PyFile) :
    ∀ (best : Option PyFile) (m : Int) (f : PyFile), glvfLoop l best m = some f →
    (best = some f ∧ ∀ g ∈ l, g.isVideo = some true → (g.size : Int) ≤ m) ∨
    (∃ pre post, l = pre ++ f :: post ∧ f.isVideo = some true ∧ m < (f.size : Int) ∧
      (∀ g ∈ pre, g.isVideo = some true → g.size < f.size) ∧
      (∀ g ∈ post, g.isVideo = some true → g.size ≤ f.size)) := by
  induction l with
  | nil =>
    intro best m f h
    exact Or.inl ⟨h, by simp⟩
  | cons a rest ih =>
    intro best m f h
    by_cases hg : a.isVideo = some true ∧ m < (a.size : Int)
    · rw [glvfLoop, if_pos hg] at h
      rcases ih _ _ _ h with ⟨hb, hall⟩ | ⟨pre, post, hsplit, hv, hm, hpre, hpost⟩
      · -- the head `a` is the final choice
        have haf : a = f := Option.some.injEq a f ▸ hb
        subst haf
        refine Or.inr ⟨[], rest, by simp, hg.1, hg.2, by simp, ?_⟩
        intro g hgmem hgv
        exact_mod_cast hall g hgmem hgv
      · -- a later entry `f` beat the head `a`
        refine Or.inr ⟨a :: pre, post, by rw [hsplit]; rfl, hv, lt_trans hg.2 hm, ?_, hpost⟩
        intro g hgmem hgv
        rcases List.mem_cons.mp hgmem with rfl | hgmem'
        · exact_mod_cast hm
        · exact hpre g hgmem' hgv
    · rw [glvfLoop, if_neg hg] at h
      rcases ih _ _ _ h with ⟨hb, hall⟩ | ⟨pre, post, hsplit, hv, hm, hpre, hpost⟩
      · refine Or.inl ⟨hb, ?_⟩
        intro g hgmem hgv
        rcases List.mem_cons.mp hgmem with rfl | hgmem'
        · by_contra hlt
          exact hg ⟨hgv, lt_of_not_ge hlt⟩
        · exact hall g hgmem' hgv
      · refine Or.inr ⟨a :: pre, post, by rw [hsplit]; rfl, hv, hm, ?_, hpost⟩
        intro g hgmem hgv
        rcases List.mem_cons.mp hgmem with rfl | hgmem'
        · have hle : (g.size : Int) ≤ m := by
            by_contra hlt
            exact hg ⟨hgv, lt_of_not_ge hlt⟩
          exact_mod_cast lt_of_le_of_lt hle hm
        · exact hpre g hgmem' hgv

/-- The loop returns `none` whenever no entry has a truthy `isVideo` key. -/
theorem get_largest_video_file_eq_none (files : List PyFile)
    (h : ∀ f ∈ files, f.isVideo ≠ some true) :
    get_largest_video_file files = none :=
  glvfLoop_of_no_video files none (-1) h

/-- C5: for every file list, when no file is flagged as video nothing is
chosen, and otherwise the chosen file is a video file that strictly exceeds
every video file before it in the list and is at least as large as every
video file after it — so it is the largest, and on ties the earlier (lower
index) file wins. -/
theorem C5_video_selection (files : List PyFile) :
    match get_largest_video_file files with
    | none => ∀ f ∈ files, f.isVideo ≠ some true
    | some f => f.isVideo = some true ∧
        ∃ pre post, files = pre ++ f :: post ∧
          (∀ g ∈ pre, g.isVideo = some true → g.size < f.size) ∧
          (∀ g ∈ post, g.isVideo = some true → g.size ≤ f.size) := by
  cases h : get_largest_video_file files with
  | none =>
    obtain ⟨-, hall⟩ := glvfLoop_eq_none files none (-1) h
    intro f hf hv
    have h1 := hall f hf hv
    have h2 : (0 : Int) ≤ (f.size : Int) := Int.ofNat_nonneg f.size
    omega
  | some f =>
    rcases glvfLoop_eq_some files none (-1) f h with ⟨hb, -⟩ | ⟨pre, post, hs, hv, -, hpre, hpost⟩
    · exact absurd hb (by simp)
    · exact ⟨hv, pre, post, hs, hpre, hpost⟩

/-! ## C6: which extensions are flagged as video -/

/-- The code's boolean test agrees with "lowercased name ends in `.mp4`,
`.mkv`, `.avi` or `.mov`". -/
theorem isVideoPath_iff (p : List Char) :
    isVideoPath p = true ↔ hasVideoExt ["mp4", "mkv", "avi", "mov"] p := by
  unfold isVideoPath hasVideoExt extsCode
  rw [List.any_eq_true]
  constructor
  · rintro ⟨e, he, hend⟩
    simp only [List.mem_cons, List.not_mem_nil, or_false] at he
    rcases he with rfl | rfl | rfl | rfl
    · exact ⟨"mp4", by simp, by simpa using hend⟩
    · exact ⟨"mkv", by simp, by simpa using hend⟩
    · exact ⟨"avi", by simp, by simpa using hend⟩
    · exact ⟨"mov", by simp, by simpa using hend⟩
  · rintro ⟨e, he, hend⟩
    simp only [List.mem_cons, List.not_mem_nil, or_false] at he
    rcases he with rfl | rfl | rfl | rfl
    · exact ⟨".mp4".data, by simp, by simpa using hend⟩
    · exact ⟨".mkv".data, by simp, by simpa using hend⟩
    · exact ⟨".avi".data, by simp, by simpa using hend⟩
    · exact ⟨".mov".data, by simp, by simpa using hend⟩

/-- C6 counterexample: the alert listener flags `movie.wmv` as NOT video
(`isVideo = some false`), although `wmv` belongs to the extension set
{mp4, mkv, avi, mov, wmv, flv} named by the claim. -/
theorem C6_counterexample :
    buildFilesApp 0 [("movie.wmv".data, 700)] =
      [{ index := some 0, name := some "movie.wmv".data, size := 700,
         isVideo := some false }] ∧
    hasVideoExt ["mp4", "mkv", "avi", "mov", "wmv", "flv"] "movie.wmv".data := by
  constructor
  · decide
  · decide

/-- C6 (amended): on metadata arrival the alert listener sets every entry's
`isVideo` flag true iff the file name's extension (case-insensitive) is one
of {mp4, mkv, avi, mov} — `wmv` and `flv` are NOT in the code's list. -/
theorem C6_video_flag (i : Nat) (entries : List (List Char × Nat)) :
    ∀ f ∈ buildFilesApp i entries,
    ∃ p, f.name = some p ∧
      (f.isVideo = some true ↔ hasVideoExt ["mp4", "mkv", "avi", "mov"] p) := by
  induction entries generalizing i with
  | nil => intro f hf; exact absurd hf (by simp [buildFilesApp])
  | cons e rest ih =>
    intro f hf
    rw [buildFilesApp] at hf
    rcases List.mem_cons.mp hf with rfl | hf'
    · refine ⟨e.1, rfl, ?_⟩
      simp only [Option.some.injEq]
      exact (isVideoPath_iff e.1)
    · exact ih (i + 1) f hf'

/-- Witness for `C6_video_flag` at a concrete uppercase `.MKV` entry. -/
theorem C6_video_flag_witness :
    ∃ p, ({ index := some 0, name := some "A.MKV".data, size := 5,
            isVideo := some true } : PyFile).name = some p ∧
      (({ index := some 0, name := some "A.MKV".data, size := 5,
          isVideo := some true } : PyFile).isVideo = some true ↔
        hasVideoExt ["mp4", "mkv", "avi", "mov"] p) :=
  C6_video_flag 0 [("A.MKV".data, 5)] _ (by decide)

/-! ## Model of the libtorrent handle and the background alert loop

A `HandleModel` captures the parts of a libtorrent torrent handle the source
reads or writes: piece geometry, per-file layout `(offset, size)`, the set of
completed pieces, the pause flag, the pieces holding a deadline, and the last
`prioritize_files` vector.  `file_progress(piece_granularity)` is modelled as
the number of bytes of the file lying inside completed pieces.
-/

structure HandleModel where
  pieceLength : Nat
  numPieces : Nat
  fileLayout : List (Nat × Nat)
  completed : List Nat
  paused : Bool := false
  deadlines : List Nat := []
  filePriorities : Option (List Nat) := none
  deriving DecidableEq, Repr

/-- Bytes of the file `(off, sz)` inside piece `p` of length `len`:
the overlap of `[off, off+sz)` with `[p*len, (p+1)*len)`. -/
def pieceOverlap (len off sz p : Nat) : Nat :=
  min ((p + 1) * len) (off + sz) - max (p * len) off

/-- Model of `handle.file_progress(flags=piece_granularity)` for one file:
total bytes of the file contained in completed pieces. -/
def fileProgressPG (h : HandleModel) (off sz : Nat) : Nat :=
  (List.range h.numPieces).foldl
    (fun acc p => if h.completed.contains p then acc + pieceOverlap h.pieceLength off sz p else acc) 0

/-- Model of `ti.map_file(idx, byteOff, 1).piece`: the piece holding byte
`byteOff` of file `idx` (global offset divided by the piece length). -/
def mapFilePiece (h : HandleModel) (idx : Nat) (byteOff : Nat) : Nat :=
  match h.fileLayout.get? idx with
  | some fl => (fl.1 + byteOff) / h.pieceLength
  | none => 0

/-- Model of Python's `list.index(x)`: position of the first element equal to
`x` (the source only calls it on an element known to be present). -/
def listIndex (x : PyFile) : List PyFile → Nat
  | [] => 0
  | y :: rest => if y = x then 0 else (listIndex x rest) + 1

/-- Per-torrent record of the `src/` application (src/state.py lines 9-23),
restricted to the fields the modelled code paths touch. -/
structure TorrentRec where
  status : String := "metadata"
  files : List PyFile := []
  hls_process : Option Bool := none
  hls_last_accessed : Option Nat := none
  deriving DecidableEq, Repr

/-- Branch of the background alert listener for `metadata_received`
(src/background.py lines 28-65): set status `downloading_warm_cache`,
populate `files` via `to_dict` (path/size/offset only), pick the largest
video file; if one is found, prioritize it (1 for it, 0 elsewhere) and put a
deadline on every piece of its leading `warmMB` megabytes, else do nothing
further.  `WARM_CACHE_SIZE_MB` is not defined in src/config.py; it is kept
as the parameter `warmMB`. -/
def metadata_step (warmMB : Nat) (h : HandleModel) (rec : TorrentRec)
    (entries : List (List Char × Nat × Nat)) : HandleModel × TorrentRec :=
  let files := buildFilesBackground entries
  let rec' := { rec with status := "downloading_warm_cache", files := files }
  match get_largest_video_file files with
  | none => (h, rec')
  | some vf =>
    let idx := listIndex vf files
    let warmBytes := warmMB * 1024 * 1024
    let priorities := (List.range files.length).map (fun i => if i = idx then 1 else 0)
    let startPiece := mapFilePiece h idx 0
    let endPiece := mapFilePiece h idx warmBytes
    ({ h with filePriorities := some priorities,
              deadlines := h.deadlines ++ List.range' startPiece (endPiece + 1 - startPiece) },
     rec')

/-- Branch of the background alert listener for `piece_finished`
(src/background.py lines 67-92): when the status is
`downloading_warm_cache` and a video file is chosen, compare
`file_progress[idx] * piece_length` against `WARM_CACHE_SIZE_MB` megabytes;
when reached, pause the handle, set status `"paused"`, and clear the
deadline of every piece. -/
def piece_finished_step (warmMB : Nat) (h : HandleModel) (rec : TorrentRec) :
    HandleModel × TorrentRec :=
  if rec.status = "downloading_warm_cache" then
    match get_largest_video_file rec.files with
    | none => (h, rec)
    | some vf =>
      let idx := listIndex vf rec.files
      let warmBytes := warmMB * 1024 * 1024
      let prog :=
        match h.fileLayout.get? idx with
        | some fl => fileProgressPG h fl.1 fl.2
        | none => 0
      if warmBytes ≤ prog * h.pieceLength then
        ({ h with paused := true,
                  deadlines := h.deadlines.filter (fun p => h.numPieces ≤ p) },
         { rec with status := "paused" })
      else (h, rec)
  else (h, rec)

/-- The spec-side completion test of claim C2: every piece that overlaps the
leading `warmBytes` bytes of the file `(off, sz)` is complete (bounded to the
torrent's pieces so the predicate is decidable). -/
def leadingBytesComplete (h : HandleModel) (off sz warmBytes : Nat) : Prop :=
  ∀ p < h.numPieces, 0 < pieceOverlap h.pieceLength off (min sz warmBytes) p →
    h.completed.contains p = true

instance (h : HandleModel) (off sz warmBytes : Nat) :
    Decidable (leadingBytesComplete h off sz warmBytes) := by
  unfold leadingBytesComplete; infer_instance

/-! ## Playlist handler video selection (src/api/streaming.py lines 28-57) -/

inductive PlaylistOutcome where
  | notFoundTorrent
  | serviceUnavailable503
  | noVideo404
  | proceed (vf : PyFile) (newFiles : List PyFile)
  deriving DecidableEq, Repr

/-- Video-selection fragment of `get_hls_playlist` (streaming.py lines
36-57): choose from the stored `files`; when nothing is chosen, 503 if the
handle has no metadata yet, otherwise rebuild the list from the torrent info
(with the lowercase `is_video` key) and retry; when still nothing, 404
"No video file found in torrent.". -/
def hls_playlist_select (files0 : List PyFile) (hasMeta : Bool)
    (tiEntries : List (List Char × Nat)) : PlaylistOutcome :=
  match get_largest_video_file files0 with
  | some vf => .proceed vf files0
  | none =>
    if hasMeta = false then .serviceUnavailable503
    else
      match get_largest_video_file (buildFilesFallback 0 tiEntries) with
      | some vf => .proceed vf (buildFilesFallback 0 tiEntries)
      | none => .noVideo404

/-! ## C10: the video flag key mismatch -/

/-- Entries built by the playlist fallback carry the flag only under
`is_video`; the `isVideo` key is absent. -/
theorem buildFilesFallback_isVideo (i : Nat) (entries : List (List Char × Nat)) :
    ∀ f ∈ buildFilesFallback i entries, f.isVideo = none := by
  induction entries generalizing i with
  | nil => intro f hf; exact absurd hf (by simp [buildFilesFallback])
  | cons e rest ih =>
    intro f hf
    rw [buildFilesFallback] at hf
    rcases List.mem_cons.mp hf with rfl | hf'
    · rfl
    · exact ih (i + 1) f hf'

/-- Entries built by the background `to_dict` carry no video flag at all. -/
theorem buildFilesBackground_isVideo (entries : List (List Char × Nat × Nat)) :
    ∀ f ∈ buildFilesBackground entries, f.isVideo = none := by
  intro f hf
  rcases List.mem_map.mp hf with ⟨e, -, rfl⟩
  rfl

/-- C10: `get_largest_video_file` inspects only the `isVideo` key, so on the
lists built by the playlist fallback (`is_video` key) or by the background
listener (no flag) it returns `none`; the playlist endpoint then answers 404
"No video file found in torrent." and the metadata step schedules no warm
cache (handle untouched: no priorities, no deadlines). -/
theorem C10_video_key_mismatch (tiEntries : List (List Char × Nat))
    (bgEntries : List (List Char × Nat × Nat)) (warmMB : Nat)
    (h : HandleModel) (rec : TorrentRec) :
    get_largest_video_file (buildFilesFallback 0 tiEntries) = none ∧
    get_largest_video_file (buildFilesBackground bgEntries) = none ∧
    hls_playlist_select (buildFilesBackground bgEntries) true tiEntries = .noVideo404 ∧
    hls_playlist_select [] true tiEntries = .noVideo404 ∧
    (metadata_step warmMB h rec bgEntries).1 = h := by
  have h1 : get_largest_video_file (buildFilesFallback 0 tiEntries) = none :=
    get_largest_video_file_eq_none _
      (fun f hf => by rw [buildFilesFallback_isVideo 0 tiEntries f hf]; simp)
  have h2 : get_largest_video_file (buildFilesBackground bgEntries) = none :=
    get_largest_video_file_eq_none _
      (fun f hf => by rw [buildFilesBackground_isVideo bgEntries f hf]; simp)
  have h3 : get_largest_video_file ([] : List PyFile) = none := rfl
  refine ⟨h1, h2, ?_, ?_, ?_⟩
  · unfold hls_playlist_select
    rw [h2, h1]
    rfl
  · unfold hls_playlist_select
    rw [h3, h1]
    rfl
  · simp [metadata_step, h2]

/-! ## C2: the warm-cache completion test -/

/-- Concrete handle for the C2 scenario: 16 KiB pieces, a single 1 MiB video
file at offset 0, and exactly one completed piece in the middle of the file
(piece 50); the leading bytes are entirely absent. -/
def c2Handle : HandleModel :=
  { pieceLength := 16384, numPieces := 64, fileLayout := [(0, 1048576)],
    completed := [50], deadlines := [0, 1, 2] }

/-- Concrete torrent record for the C2 scenario: warm-caching state with a
single flagged video file. -/
def c2Rec : TorrentRec :=
  { status := "downloading_warm_cache",
    files := [{ name := some "v.mp4".data, size := 1048576, isVideo := some true }] }

/-- C2 counterexample: with only piece 50 complete (none of the leading
megabyte), the code's completion test fires — the torrent is paused and its
status set to `"paused"` — although the file's leading
`WARM_CACHE_SIZE_MB = 1` megabyte is NOT complete.  The code compares
`file_progress[idx] * piece_length` (total completed bytes of the file,
scaled by the piece length) against the threshold, not the leading bytes. -/
theorem C2_counterexample :
    (piece_finished_step 1 c2Handle c2Rec).1.paused = true ∧
    (piece_finished_step 1 c2Handle c2Rec).2.status = "paused" ∧
    ¬ leadingBytesComplete c2Handle 0 1048576 (1 * 1024 * 1024) := by
  refine ⟨by decide, by decide, by decide⟩

/-- C2 (amended): in the warm-caching state with a chosen video file laid
out at `(off, sz)`, the `piece_finished` branch pauses the torrent, sets
status `"paused"` and clears every piece deadline exactly when
`file_progress[idx] * piece_length` (progress at piece granularity times the
piece length, NOT the file's leading bytes) reaches
`WARM_CACHE_SIZE_MB * 2^20`; otherwise it changes nothing. -/
theorem C2_warm_cache_stop (warmMB : Nat) (h : HandleModel) (rec : TorrentRec)
    (vf : PyFile) (off sz : Nat)
    (hst : rec.status = "downloading_warm_cache")
    (hvf : get_largest_video_file rec.files = some vf)
    (hlay : h.fileLayout.get? (listIndex vf rec.files) = some (off, sz)) :
    (warmMB * 1024 * 1024 ≤ fileProgressPG h off sz * h.pieceLength →
      (piece_finished_step warmMB h rec).1.paused = true ∧
      (piece_finished_step warmMB h rec).2.status = "paused" ∧
      ∀ p < h.numPieces, p ∉ (piece_finished_step warmMB h rec).1.deadlines) ∧
    (fileProgressPG h off sz * h.pieceLength < warmMB * 1024 * 1024 →
      piece_finished_step warmMB h rec = (h, rec)) := by
  unfold piece_finished_step
  rw [if_pos hst, hvf]
  simp only [hlay]
  constructor
  · intro hprog
    rw [if_pos hprog]
    refine ⟨rfl, rfl, ?_⟩
    intro p hp hmem
    simp only [List.mem_filter] at hmem
    exact absurd (of_decide_eq_true hmem.2) (Nat.not_le.mpr hp)
  · intro hprog
    rw [if_neg (Nat.not_le.mpr hprog)]

/-- Witness for `C2_warm_cache_stop` at the concrete C2 scenario: the test
passes (268435456 ≥ 1048576), so the torrent pauses, the status becomes
`"paused"`, and piece 0's deadline is cleared. -/
theorem C2_warm_cache_stop_witness :
    (piece_finished_step 1 c2Handle c2Rec).1.paused = true ∧
    (piece_finished_step 1 c2Handle c2Rec).2.status = "paused" ∧
    0 ∉ (piece_finished_step 1 c2Handle c2Rec).1.deadlines := by
  have hth := C2_warm_cache_stop 1 c2Handle c2Rec
    { name := some "v.mp4".data, size := 1048576, isVideo := some true }
    0 1048576 (by decide) (by decide) (by decide)
  obtain ⟨hfire, -⟩ := hth
  have hout := hfire (by decide)
  exact ⟨hout.1, hout.2.1, hout.2.2 0 (by decide)⟩

/-- Witness for `C5_video_selection` at a concrete one-element video list. -/
theorem C5_video_selection_witness :
    (match get_largest_video_file
        [({ name := some "a.mp4".data, size := 5, isVideo := some true } : PyFile)] with
     | none => ∀ f ∈ [({ name := some "a.mp4".data, size := 5,
                          isVideo := some true } : PyFile)], f.isVideo ≠ some true
     | some f => f.isVideo = some true ∧
         ∃ pre post,
           [({ name := some "a.mp4".data, size := 5,
               isVideo := some true } : PyFile)] = pre ++ f :: post ∧
           (∀ g ∈ pre, g.isVideo = some true → g.size < f.size) ∧
           (∀ g ∈ post, g.isVideo = some true → g.size ≤ f.size)) :=
  C5_video_selection [{ name := some "a.mp4".data, size := 5, isVideo := some true }]

/-! ## C1: HLS segment serving and path traversal

Paths are modelled as lists of components relative to the application root
(`HLS_PATH = BASE/hls` becomes the component `"hls"`).  `Path(HLS_PATH) /
torrent_id / segment` splits the segment on `/`; `Path.exists` and
`FileResponse` hit the OS, which resolves `.` and `..` components, so
existence and serving are modelled on the normalized (canonical) component
list against a filesystem given as the list of canonical paths that exist.
-/

/-- Split a raw path string on `/` into components (model of how
`pathlib.Path` decomposes a string argument). -/
def splitSlashAux : List Char → List Char → List (List Char)
  | cur, [] => [cur.reverse]
  | cur, c :: rest =>
    if c = '/' then cur.reverse :: splitSlashAux [] rest
    else splitSlashAux (c :: cur) rest

/-- Components of a path string. -/
def splitSlash (s : List Char) : List (List Char) := splitSlashAux [] s

/-- OS-level resolution of `.`, `..` and empty components: `..` pops the last
remaining component (staying at the root when there is none). -/
def normComps : List (List Char) → List (List Char) → List (List Char)
  | stack, [] => stack.reverse
  | stack, comp :: rest =>
    if comp = ".".data ∨ comp = [] then normComps stack rest
    else if comp = "..".data then normComps stack.tail rest
    else normComps (comp :: stack) rest

/-- Canonical form of a component path. -/
def normalizePath (comps : List (List Char)) : List (List Char) := normComps [] comps

/-- Whether canonical path `p` lies inside directory `dir` (itself
canonical). -/
def underDir (dir p : List (List Char)) : Bool := decide (p.take dir.length = dir)

inductive SegmentResponse where
  | notFound
  | served (canonical : List (List Char))
  deriving DecidableEq, Repr

/-- Root component of the HLS directory. -/
def hlsRootComp : List Char := "hls".data

/-- `get_hls_segment` (src/api/streaming.py lines 192-204): lowercase the
torrent id, join `HLS_PATH / torrent_id / segment` with NO validation of the
segment name, 404 when nothing exists at the joined path, otherwise serve
whatever file the OS finds there.  `fs` is the list of canonical paths that
exist. -/
def get_hls_segment (fs : List (List (List Char))) (torrent_id seg : List Char) :
    SegmentResponse :=
  let canonical := normalizePath (hlsRootComp :: lowerChars torrent_id :: splitSlash seg)
  if fs.contains canonical then .served canonical else .notFound

/-- C1: a segment name containing `..` components is NOT rejected: with a
file `secret.ts` two levels above `hls/aaaa/`, the request
`GET /stream/aaaa/../../secret.ts` serves that file, which lies outside
`hls/aaaa/`.  The handler performs no validation of the segment name. -/
theorem C1_path_traversal :
    get_hls_segment [["secret.ts".data]] "aaaa".data "../../secret.ts".data =
      .served ["secret.ts".data] ∧
    underDir [hlsRootComp, "aaaa".data] ["secret.ts".data] = false ∧
    "..".data ∈ splitSlash "../../secret.ts".data := by
  refine ⟨by decide, by decide, by decide⟩

/-! ## C8: publication order of the transmuxer record -/

/-- Snapshot of the shared state the segment endpoint can observe while the
playlist handler starts the transmuxer: whether `torrent_info["hls_process"]`
is set and whether `stream.m3u8` exists on disk. -/
structure HlsStartState where
  hlsProcess : Bool
  playlist : Bool
  deriving DecidableEq, Repr

/-- States visited by the process-start section of `get_hls_playlist`
(src/api/streaming.py lines 142-189) when the playlist file appears after
`k` wait-loop ticks: first the state right after `create_subprocess_exec`
(line 142) and BEFORE the assignment `torrent_info["hls_process"] = process`
(line 148), then the state observed at each tick `t = 0, 1, ..., k` of the
playlist-wait loop (lines 164-187), in which the record is already
published. -/
def hlsStartTrace (k : Nat) : List HlsStartState :=
  { hlsProcess := false, playlist := decide (k = 0) } ::
    (List.range (k + 1)).map (fun t => { hlsProcess := true, playlist := decide (k ≤ t) })

/-- C8 counterexample: when the playlist appears only after one wait tick,
the trace contains a state with the transmuxer record published while
`stream.m3u8` does not yet exist. -/
theorem C8_counterexample :
    ∃ s ∈ hlsStartTrace 1, s.hlsProcess = true ∧ s.playlist = false := by
  decide

/-- C8 (amended): the handler publishes `hls_process` immediately after
spawning ffmpeg and BEFORE the playlist exists: when the playlist takes
`k > 0` ticks to appear, the first post-publication state has the record set
with no playlist; the record then stays published at every later state, and
the final state (the moment the playlist is served) has both the record and
the playlist.  So `hls_process ≠ null` does not imply the playlist exists;
only the converse direction is guaranteed after publication. -/
theorem C8_publish_before_playlist (k : Nat) (hk : 0 < k) :
    (hlsStartTrace k).get? 1 = some { hlsProcess := true, playlist := false } ∧
    (hlsStartTrace k).get? (k + 1) = some { hlsProcess := true, playlist := true } ∧
    ∀ i s, 1 ≤ i → (hlsStartTrace k).get? i = some s → s.hlsProcess = true := by
  refine ⟨?_, ?_, ?_⟩
  · rw [hlsStartTrace, List.get?_cons_succ, List.get?_map, List.get?_range (by omega)]
    simp [Nat.not_le.mpr hk]
  · rw [hlsStartTrace, List.get?_cons_succ, List.get?_map, List.get?_range (by omega)]
    simp
  · intro i s hi hget
    obtain ⟨j, rfl⟩ : ∃ j, i = j + 1 := ⟨i - 1, by omega⟩
    rw [hlsStartTrace, List.get?_cons_succ, List.get?_map] at hget
    cases hr : (List.range (k + 1)).get? j with
    | none => rw [hr] at hget; exact absurd hget (by intro hc; cases hc)
    | some t =>
      rw [hr] at hget
      have h2 : some ({ hlsProcess := true, playlist := decide (k ≤ t) } : HlsStartState) =
          some s := hget
      rw [← Option.some.inj h2]

/-- Witness for `C8_publish_before_playlist` at `k = 2`. -/
theorem C8_publish_before_playlist_witness :
    (hlsStartTrace 2).get? 1 = some { hlsProcess := true, playlist := false } ∧
    (hlsStartTrace 2).get? 3 = some { hlsProcess := true, playlist := true } ∧
    ∀ i s, 1 ≤ i → (hlsStartTrace 2).get? i = some s → s.hlsProcess = true :=
  C8_publish_before_playlist 2 (by decide)

/-! ## C9: the idle-stream reaper

`cleanup_inactive_streams` (src/background.py lines 96-135), modelled as a
single tick over the whole registry.  An entry pairs the torrent record with
the handle's paused flag; times are seconds; `WARM_CACHE_TIMEOUT_MINUTES`
enters as `timeoutMin`.  Outputs: the updated registry, the surviving HLS
directories, and the ids whose running ffmpeg process was terminated.
-/

structure TorrentEntry where
  torrent : TorrentRec
  paused : Bool
  deriving DecidableEq, Repr

/-- Reap condition (src/background.py lines 107-108): `hls_last_accessed`
is set and `now - last_accessed > timedelta(minutes=WARM_CACHE_TIMEOUT_MINUTES)`. -/
def reapCond (timeoutMin now : Nat) (e : TorrentEntry) : Bool :=
  match e.torrent.hls_last_accessed with
  | some t => decide (timeoutMin * 60 < now - t)
  | none => false

/-- Effect of reaping one entry (src/background.py lines 111-135): null the
process and the access time, and pause the torrent — setting status
`"paused"` — when the handle is not yet paused. -/
def reapEntry (e : TorrentEntry) : TorrentEntry :=
  { torrent := { e.torrent with
      hls_process := none,
      hls_last_accessed := none,
      status := if e.paused then e.torrent.status else "paused" },
    paused := true }

/-- One tick of `cleanup_inactive_streams`: rewrite every stale entry with
`reapEntry`, delete the HLS directory of every stale id, and terminate the
ffmpeg process of every stale entry whose process is still running
(`returncode is None`, modelled as `hls_process = some true`). -/
def cleanup_tick (timeoutMin now : Nat)
    (reg : List (List Char × TorrentEntry)) (hlsDirs : List (List Char)) :
    List (List Char × TorrentEntry) × List (List Char) × List (List Char) :=
  (reg.map (fun it => if reapCond timeoutMin now it.2 then (it.1, reapEntry it.2) else it),
   hlsDirs.filter
     (fun d => !(reg.any (fun it => decide (it.1 = d) && reapCond timeoutMin now it.2))),
   reg.filterMap
     (fun it =>
       if reapCond timeoutMin now it.2 = true ∧ it.2.torrent.hls_process = some true then
         some it.1
       else none))

/-- C9: for a registered torrent with a live transmuxer not accessed for more
than the timeout, one reaper tick terminates the process, deletes its HLS
directory, leaves the record registered (reaper never evicts; in fact the
registry keys are always preserved) with the process field nulled, the
handle paused and the status `"paused"` (the code's idle posture).  The side
condition `paused → status = "paused"` holds in every reachable state: the
only code paths that pause a handle also set that status. -/
theorem C9_reaper_tick (timeoutMin now : Nat)
    (reg : List (List Char × TorrentEntry)) (hlsDirs : List (List Char))
    (id : List Char) (e : TorrentEntry) (t : Nat)
    (hmem : (id, e) ∈ reg)
    (hproc : e.torrent.hls_process = some true)
    (hacc : e.torrent.hls_last_accessed = some t)
    (hstale : timeoutMin * 60 < now - t)
    (hpst : e.paused = true → e.torrent.status = "paused") :
    (id, reapEntry e) ∈ (cleanup_tick timeoutMin now reg hlsDirs).1 ∧
    (reapEntry e).torrent.hls_process = none ∧
    (reapEntry e).paused = true ∧
    (reapEntry e).torrent.status = "paused" ∧
    id ∉ (cleanup_tick timeoutMin now reg hlsDirs).2.1 ∧
    id ∈ (cleanup_tick timeoutMin now reg hlsDirs).2.2 ∧
    (∀ (reg2 : List (List Char × TorrentEntry)) (dirs2 : List (List Char)),
      ((cleanup_tick timeoutMin now reg2 dirs2).1.map Prod.fst) = reg2.map Prod.fst) := by
  have hcond : reapCond timeoutMin now e = true := by
    rw [reapCond, hacc]
    exact decide_eq_true hstale
  refine ⟨?_, rfl, rfl, ?_, ?_, ?_, ?_⟩
  · exact List.mem_map.mpr ⟨(id, e), hmem, by rw [if_pos hcond]⟩
  · rw [reapEntry]
    cases hp : e.paused with
    | false => rfl
    | true => simp only [if_pos]; exact hpst hp
  · intro hin
    have hkeep := (List.mem_filter.mp hin).2
    have hany : reg.any
        (fun it => decide (it.1 = id) && reapCond timeoutMin now it.2) = true :=
      List.any_eq_true.mpr ⟨(id, e), hmem, by rw [hcond]; simp⟩
    rw [hany] at hkeep
    exact absurd hkeep (by decide)
  · exact List.mem_filterMap.mpr ⟨(id, e), hmem, by rw [if_pos ⟨hcond, hproc⟩]⟩
  · intro reg2 dirs2
    rw [cleanup_tick]
    simp only [List.map_map]
    apply List.map_congr_left
    intro it _
    by_cases hc : reapCond timeoutMin now it.2 = true
    · simp [hc]
    · simp [hc]

/-- Witness for `C9_reaper_tick`: a single stale streaming torrent, 21
minutes idle with a 20-minute timeout. -/
theorem C9_reaper_tick_witness :
    (("aaaa".data,
       reapEntry { torrent := { status := "downloading",
                                hls_process := some true, hls_last_accessed := some 60 },
                   paused := false }) ∈
      (cleanup_tick 20 1320
        [("aaaa".data,
          { torrent := { status := "downloading",
                         hls_process := some true, hls_last_accessed := some 60 },
            paused := false })] ["aaaa".data]).1) ∧
    "aaaa".data ∉ (cleanup_tick 20 1320
        [("aaaa".data,
          { torrent := { status := "downloading",
                         hls_process := some true, hls_last_accessed := some 60 },
            paused := false })] ["aaaa".data]).2.1 := by
  have h := C9_reaper_tick 20 1320
    [("aaaa".data,
      { torrent := { status := "downloading",
                     hls_process := some true, hls_last_accessed := some 60 },
        paused := false })] ["aaaa".data]
    "aaaa".data
    { torrent := { status := "downloading",
                   hls_process := some true, hls_last_accessed := some 60 },
      paused := false }
    60 (by decide) (by decide) (by decide) (by decide) (by decide)
  exact ⟨h.1, h.2.2.2.2.1⟩

/-! ## C7: the direct byte-range stream generator

`direct_stream_generator` (app.py lines 313-336), over a file modelled as
the full content (`List Nat` of byte values) of which only the first `avail`
bytes are on disk.  A read at position `pos` returns the next bytes of the
available region.  The loop is given fuel: one unit per iteration (each
iteration either emits a chunk or sleeps 500 ms and retries); `none` means
the fuel ran out while the generator was still waiting for data.
-/

/-- The source's 1 MiB chunk size (app.py line 324). -/
def chunkSizeB : Nat := 1048576

/-- One `f.read(n)` at position `pos` of a file whose first `avail` bytes of
`content` exist on disk. -/
def streamRead (content : List Nat) (avail pos n : Nat) : List Nat :=
  ((content.take avail).drop pos).take n

/-- The `while (pos := f.tell()) <= end` loop of `direct_stream_generator`
(app.py lines 325-336): read `min(1 MiB, end - pos + 1)` bytes; on an empty
read, sleep and retry from the same position while `pos < end`, break when
`pos = end`; otherwise emit the data and continue past it. -/
def direct_stream (content : List Nat) (avail : Nat) :
    Nat → Nat → Nat → Option (List Nat)
  | 0, _, _ => none
  | fuel + 1, pos, e =>
    if pos ≤ e then
      let data := streamRead content avail pos (min chunkSizeB (e - pos + 1))
      if data.isEmpty then
        if pos < e then direct_stream content avail fuel pos e
        else some []
      else
        match direct_stream content avail fuel (pos + data.length) e with
        | none => none
        | some rest => some (data ++ rest)
    else some []

/-- Body produced by the direct-streaming branch of `stream_file` (app.py
lines 338-354) on a fully available file: with a `Range: bytes=S-E` header
(missing `E` means file end) the generator runs from `S` to `E`; without a
header it runs from `0` to `size - 1`. -/
def stream_file_body (content : List Nat) (rangeHeader : Option (Nat × Option Nat)) :
    Option (List Nat) :=
  match rangeHeader with
  | some se =>
    direct_stream content content.length (content.length + 2) se.1
      (se.2.getD (content.length - 1))
  | none =>
    direct_stream content content.length (content.length + 2) 0 (content.length - 1)

/-- On a fully available file, the generator emits exactly the requested
byte range. -/
theorem direct_stream_full (content : List Nat) (e : Nat) (he : e < content.length) :
    ∀ (fuel pos : Nat), pos ≤ e → e + 2 ≤ fuel + pos →
    direct_stream content content.length fuel pos e =
      some ((content.drop pos).take (e - pos + 1)) := by
  intro fuel
  induction fuel with
  | zero => intro pos hpos hfuel; omega
  | succ f ih =>
    intro pos hpos hfuel
    have hread : streamRead content content.length pos (min chunkSizeB (e - pos + 1)) =
        (content.drop pos).take (min chunkSizeB (e - pos + 1)) := by
      rw [streamRead, List.take_length]
    have hrs1 : 1 ≤ min chunkSizeB (e - pos + 1) := by
      have h1 : 1 ≤ chunkSizeB := by rw [chunkSizeB]; omega
      omega
    have hlendrop : (content.drop pos).length = content.length - pos := List.length_drop pos content
    set rs := min chunkSizeB (e - pos + 1) with hrs
    have hdlen : ((content.drop pos).take rs).length = rs := by
      rw [List.length_take, hlendrop]
      omega
    have hne : ((content.drop pos).take rs).isEmpty = false := by
      cases hl : (content.drop pos).take rs with
      | nil => rw [hl] at hdlen; simp at hdlen; omega
      | cons a l => rfl
    rw [direct_stream]
    rw [if_pos hpos, hread]
    rw [if_neg (by rw [hne]; exact Bool.false_ne_true)]
    rw [hdlen]
    by_cases hdone : e < pos + rs
    · -- this chunk reaches the end of the range
      have hrse : rs = e - pos + 1 := by omega
      have hstop : direct_stream content content.length f (pos + rs) e = some [] := by
        cases f with
        | zero => omega
        | succ f2 => rw [direct_stream, if_neg (by omega)]
      rw [hstop]
      show some ((content.drop pos).take rs ++ []) = _
      rw [List.append_nil, hrse]
    · -- more chunks follow; use the induction hypothesis past this chunk
      have hrec := ih (pos + rs) (by omega) (by omega)
      rw [hrec]
      show some ((content.drop pos).take rs ++
        (content.drop (pos + rs)).take (e - (pos + rs) + 1)) = _
      have hsplit : (content.drop pos).take (e - pos + 1) =
          (content.drop pos).take rs ++ ((content.drop pos).drop rs).take (e - (pos + rs) + 1) := by
        rw [← List.take_add]
        congr 1
        omega
      rw [hsplit, List.drop_drop]

/-- On a fully available file, an empty read can only happen past the end of
the content; before the end of the range it makes the generator sleep and
retry from the same position (same arguments, one fuel unit consumed), never
truncate the body. -/
theorem direct_stream_short_read_retries (content : List Nat)
    (avail fuel pos e : Nat) (hlt : pos < e) (hempty : avail ≤ pos) :
    direct_stream content avail (fuel + 1) pos e =
      direct_stream content avail fuel pos e := by
  have hdata : streamRead content avail pos (min chunkSizeB (e - pos + 1)) = [] := by
    rw [streamRead]
    have hnil : (content.take avail).drop pos = [] :=
      List.drop_eq_nil_of_le (le_trans (List.length_take_le avail content) hempty)
    rw [hnil, List.take_nil]
  rw [direct_stream, if_pos (le_of_lt hlt), hdata]
  rw [if_pos (by rfl), if_pos hlt]

/-- C7: range round-trip on a fully available file.  Splitting at any
`0 < N < size`, the bodies of `bytes=0-(N-1)` and `bytes=N-(size-1)`
concatenate to the full content; the body of `bytes=0-(size-1)` equals the
body of a GET without a Range header; and on a short read strictly before
the end of the range the generator retries from the current position
(consuming only its 500 ms sleep) instead of truncating the body. -/
theorem C7_range_round_trip (content : List Nat) (n : Nat)
    (hn0 : 0 < n) (hnlt : n < content.length) :
    (∃ b1 b2, stream_file_body content (some (0, some (n - 1))) = some b1 ∧
      stream_file_body content (some (n, some (content.length - 1))) = some b2 ∧
      b1 ++ b2 = content) ∧
    stream_file_body content (some (0, some (content.length - 1))) =
      stream_file_body content none ∧
    (∀ avail fuel pos e, pos < e → avail ≤ pos →
      direct_stream content avail (fuel + 1) pos e =
        direct_stream content avail fuel pos e) := by
  refine ⟨?_, rfl, ?_⟩
  · refine ⟨content.take n, content.drop n, ?_, ?_, List.take_append_drop n content⟩
    · show direct_stream content content.length (content.length + 2) 0 (n - 1) =
        some (content.take n)
      rw [direct_stream_full content (n - 1) (by omega) (content.length + 2) 0
        (by omega) (by omega)]
      rw [List.drop_zero, show n - 1 - 0 + 1 = n from by omega]
    · show direct_stream content content.length (content.length + 2) n
        (content.length - 1) = some (content.drop n)
      rw [direct_stream_full content (content.length - 1) (by omega)
        (content.length + 2) n (by omega) (by omega)]
      have hfull : (content.drop n).take (content.length - 1 - n + 1) = content.drop n := by
        apply List.take_of_length_le
        rw [List.length_drop]
        omega
      rw [hfull]
  · intro avail fuel pos e h1 h2
    exact direct_stream_short_read_retries content avail fuel pos e h1 h2

/-- Witness for `C7_range_round_trip` on the four-byte file `[10, 20, 30,
40]` split at `N = 2`. -/
theorem C7_range_round_trip_witness :
    ∃ b1 b2, stream_file_body [10, 20, 30, 40] (some (0, some (2 - 1))) = some b1 ∧
      stream_file_body [10, 20, 30, 40]
        (some (2, some ([10, 20, 30, 40].length - 1))) = some b2 ∧
      b1 ++ b2 = [10, 20, 30, 40] :=
  (C7_range_round_trip [10, 20, 30, 40] 2 (by decide) (by decide)).1

/-! ## C3 and C4: admitting a torrent

Models of the two admit endpoints.  The libtorrent session is the list of
infohashes it holds: torrents in a session are keyed by infohash, so
re-adding an infohash already present yields the handle of the existing
torrent, never a second entry (`sessAdd` below).  The handle's behaviour is
an oracle pair `valid`/`hasMeta` indexed by the 0.1-second poll tick.
-/

/-- Model of `session.add_torrent` at infohash granularity. -/
def sessAdd (ses : List (List Char)) (ih : List Char) : List (List Char) :=
  if ih ∈ ses then ses else ih :: ses

/-- The wait loop of src/api/torrents.py lines 60-65: poll `ok` every 0.1 s,
at most `fuel = 300` times (30 seconds); returns the tick at which the loop
stopped. -/
def metadataWait (ok : Nat → Bool) : Nat → Nat → Nat
  | 0, t => t
  | fuel + 1, t => if ok t then t else metadataWait ok fuel (t + 1)

/-- Record registered for a fresh torrent (src/api/torrents.py lines
77-84). -/
def newTorrentRec : TorrentRec :=
  { status := "metadata", files := [], hls_process := none, hls_last_accessed := none }

inductive AddResponse where
  | badRequest (msg : String)
  | serviceUnavailable
  | alreadyExists (ih : List Char)
  | added (ih : List Char)
  deriving DecidableEq, Repr

/-- `add_torrent` of src/api/torrents.py lines 43-90: add to the session
FIRST, wait up to 30 s for `handle.is_valid() and handle.has_metadata()`,
raise (caught and mapped to HTTP 400) when the handle is still invalid, and
only then check the registry: return "Torrent already exists" for a known
infohash, otherwise register and return "Torrent added" (202).
`serviceUnavailable` (HTTP 503) exists in the response type only because the
claim names it; no code path produces it. -/
def add_torrent (ses : List (List Char)) (reg : List (List Char × TorrentRec))
    (ih : List Char) (valid hasMeta : Nat → Bool) :
    AddResponse × List (List Char) × List (List Char × TorrentRec) :=
  let ses' := sessAdd ses ih
  let tEnd := metadataWait (fun t => valid t && hasMeta t) 300 0
  if valid tEnd = false then
    (.badRequest "Failed to get valid torrent handle", ses', reg)
  else
    let h := lowerChars ih
    if h ∈ reg.map Prod.fst then (.alreadyExists h, ses', reg)
    else (.added h, ses', (h, newTorrentRec) :: reg)

inductive AppAddResponse where
  | badRequest
  | alreadyActive (ih : List Char)
  | adding (ih : List Char)
  deriving DecidableEq, Repr

/-- Per-torrent record of the top-level app.py (lines 215-224), restricted
to the fields the admit path touches. -/
structure AppTorrentRec where
  name : List Char
  status : String
  added_at : Nat
  last_accessed_at : Nat
  files : List PyFile
  deriving DecidableEq, Repr

/-- `add_torrent` of app.py lines 198-233: 400 unless the hash has length
40; for a known hash, touch `last_accessed_at` and answer "already_active"
WITHOUT calling the session; otherwise add to the session, register, and
answer "adding" (the subsequent 30 s metadata wait does not change the
response shape).  `st` stands for `get_torrent_status(handle)`. -/
def app_add_torrent (ses : List (List Char)) (reg : List (List Char × AppTorrentRec))
    (torrentHash nm : List Char) (st : String) (now : Nat) :
    AppAddResponse × List (List Char) × List (List Char × AppTorrentRec) :=
  let h := lowerChars torrentHash
  if h.length ≠ 40 then (.badRequest, ses, reg)
  else if h ∈ reg.map Prod.fst then
    (.alreadyActive h, ses,
     reg.map (fun it => if it.1 = h then (it.1, { it.2 with last_accessed_at := now }) else it))
  else
    (.adding h, sessAdd ses h,
     (h, { name := nm, status := st, added_at := now, last_accessed_at := now,
           files := [] }) :: reg)

/-- C3: admitting an already-registered infohash is idempotent in both
implementations.  src/api/torrents.py answers "Torrent already exists" with
the same infohash, leaves the registry untouched (still exactly one record
for the hash) and leaves the session untouched (the unconditional
`ses.add_torrent` call re-yields the existing keyed entry — no second
handle).  app.py answers "already_active", never calls the session, and only
touches `last_accessed_at`, preserving the registry keys. -/
theorem C3_idempotent_admit (ses : List (List Char))
    (reg : List (List Char × TorrentRec)) (appSes : List (List Char))
    (appReg : List (List Char × AppTorrentRec)) (ih nm : List Char) (st : String)
    (now : Nat) (valid hasMeta : Nat → Bool)
    (hlow : lowerChars ih = ih)
    (hlen : ih.length = 40)
    (hvalid : valid (metadataWait (fun t => valid t && hasMeta t) 300 0) = true)
    (hses : ih ∈ ses)
    (hreg : (reg.map Prod.fst).count ih = 1)
    (happ : (appReg.map Prod.fst).count ih = 1) :
    (add_torrent ses reg ih valid hasMeta).1 = .alreadyExists ih ∧
    (add_torrent ses reg ih valid hasMeta).2.1 = ses ∧
    (add_torrent ses reg ih valid hasMeta).2.2 = reg ∧
    (((add_torrent ses reg ih valid hasMeta).2.2.map Prod.fst).count ih = 1) ∧
    (app_add_torrent appSes appReg ih nm st now).1 = .alreadyActive ih ∧
    (app_add_torrent appSes appReg ih nm st now).2.1 = appSes ∧
    ((app_add_torrent appSes appReg ih nm st now).2.2.map Prod.fst) =
      appReg.map Prod.fst ∧
    (((app_add_torrent appSes appReg ih nm st now).2.2.map Prod.fst).count ih = 1) := by
  have hmemreg : ih ∈ reg.map Prod.fst := by
    have : 0 < (reg.map Prod.fst).count ih := by omega
    exact List.count_pos_iff_mem.mp this
  have hmemapp : ih ∈ appReg.map Prod.fst := by
    have : 0 < (appReg.map Prod.fst).count ih := by omega
    exact List.count_pos_iff_mem.mp this
  have hsrc : add_torrent ses reg ih valid hasMeta = (.alreadyExists ih, ses, reg) := by
    rw [add_torrent]
    simp only [hvalid, hlow]
    rw [if_neg (by simp), if_pos hmemreg, sessAdd, if_pos hses]
  have hkeys : ((app_add_torrent appSes appReg ih nm st now).2.2.map Prod.fst) =
      appReg.map Prod.fst := by
    rw [app_add_torrent]
    simp only [hlow]
    rw [if_neg (by rw [hlen]; omega), if_pos hmemapp]
    simp only [List.map_map]
    apply List.map_congr_left
    intro it _
    by_cases hc : it.1 = ih
    · simp [hc]
    · simp [hc]
  have happr : (app_add_torrent appSes appReg ih nm st now).1 = .alreadyActive ih := by
    rw [app_add_torrent]
    simp only [hlow]
    rw [if_neg (by rw [hlen]; omega), if_pos hmemapp]
  have happs : (app_add_torrent appSes appReg ih nm st now).2.1 = appSes := by
    rw [app_add_torrent]
    simp only [hlow]
    rw [if_neg (by rw [hlen]; omega), if_pos hmemapp]
  refine ⟨by rw [hsrc], by rw [hsrc], by rw [hsrc], by rw [hsrc]; exact hreg,
    happr, happs, hkeys, by rw [hkeys]; exact happ⟩

/-- Witness for `C3_idempotent_admit`: one registered torrent under a
40-character lowercase hash, re-admitted. -/
theorem C3_idempotent_admit_witness :
    (add_torrent ["ffffffffffffffffffffffffffffffffffffffff".data]
      [("ffffffffffffffffffffffffffffffffffffffff".data, newTorrentRec)]
      "ffffffffffffffffffffffffffffffffffffffff".data
      (fun _ => true) (fun _ => true)).1 =
      .alreadyExists "ffffffffffffffffffffffffffffffffffffffff".data ∧
    (add_torrent ["ffffffffffffffffffffffffffffffffffffffff".data]
      [("ffffffffffffffffffffffffffffffffffffffff".data, newTorrentRec)]
      "ffffffffffffffffffffffffffffffffffffffff".data
      (fun _ => true) (fun _ => true)).2.1 =
      ["ffffffffffffffffffffffffffffffffffffffff".data] := by
  have h := C3_idempotent_admit
    ["ffffffffffffffffffffffffffffffffffffffff".data]
    [("ffffffffffffffffffffffffffffffffffffffff".data, newTorrentRec)]
    []
    [("ffffffffffffffffffffffffffffffffffffffff".data,
      { name := "n".data, status := "metadata", added_at := 0,
        last_accessed_at := 0, files := [] })]
    "ffffffffffffffffffffffffffffffffffffffff".data "n".data "metadata" 0
    (fun _ => true) (fun _ => true)
    (by decide) (by decide) (by decide) (by decide) (by decide) (by decide)
  exact ⟨h.1, h.2.1⟩

/-! ## C4: behaviour of the admit call on timeout -/

/-- A 40-hex lowercase infohash for the C4 scenarios. -/
def c4Hash : List Char := "aaaaaaaaaaaaaaaaaaaaaaaaaaaaaaaaaaaaaaaa".data

/-- C4 counterexample: with a handle that is valid throughout but never
reports metadata, the 30-second wait expires and the call REGISTERS the
torrent and answers "Torrent added" — no `MetadataTimeout`, no 503, and the
torrent ends up in the registry, contrary to the claim. -/
theorem C4_counterexample :
    (add_torrent [] [] c4Hash (fun _ => true) (fun _ => false)).1 = .added c4Hash ∧
    c4Hash ∈ ((add_torrent [] [] c4Hash (fun _ => true) (fun _ => false)).2.2.map
      Prod.fst) ∧
    (add_torrent [] [] c4Hash (fun _ => true) (fun _ => false)).1 ≠
      .serviceUnavailable := by
  refine ⟨by decide, by decide, ?_⟩
  intro hc
  have h1 : (add_torrent [] [] c4Hash (fun _ => true) (fun _ => false)).1 =
      .added c4Hash := by decide
  rw [h1] at hc
  cases hc

/-- C4 (amended): the admit call polls `is_valid and has_metadata` for up to
30 seconds (300 polls of 0.1 s).  After the wait, an invalid handle yields
HTTP 400 ("Failed to get valid torrent handle") with the torrent NOT
registered; a valid handle — with or without metadata — proceeds: an unknown
infohash is registered (status "metadata") and answered "Torrent added".
No code path produces a 503. -/
theorem C4_admit_timeout_behaviour (ses : List (List Char))
    (reg : List (List Char × TorrentRec)) (ih : List Char)
    (valid hasMeta : Nat → Bool) :
    (valid (metadataWait (fun t => valid t && hasMeta t) 300 0) = false →
      (add_torrent ses reg ih valid hasMeta).1 =
        .badRequest "Failed to get valid torrent handle" ∧
      (add_torrent ses reg ih valid hasMeta).2.2 = reg) ∧
    (valid (metadataWait (fun t => valid t && hasMeta t) 300 0) = true →
      lowerChars ih ∉ reg.map Prod.fst →
      (add_torrent ses reg ih valid hasMeta).1 = .added (lowerChars ih) ∧
      (add_torrent ses reg ih valid hasMeta).2.2 =
        (lowerChars ih, newTorrentRec) :: reg) ∧
    (add_torrent ses reg ih valid hasMeta).1 ≠ .serviceUnavailable := by
  simp only [add_torrent]
  by_cases hv : valid (metadataWait (fun t => valid t && hasMeta t) 300 0) = false
  · rw [if_pos hv]
    refine ⟨fun _ => ⟨rfl, rfl⟩, fun hvt => ?_, fun hc => AddResponse.noConfusion hc⟩
    rw [hv] at hvt
    cases hvt
  · rw [if_neg hv]
    by_cases hm : lowerChars ih ∈ reg.map Prod.fst
    · rw [if_pos hm]
      exact ⟨fun hvf => absurd hvf hv, fun _ hnm => absurd hm hnm,
        fun hc => AddResponse.noConfusion hc⟩
    · rw [if_neg hm]
      exact ⟨fun hvf => absurd hvf hv, fun _ _ => ⟨rfl, rfl⟩,
        fun hc => AddResponse.noConfusion hc⟩

/-- Witness for `C4_admit_timeout_behaviour`: a handle that never becomes
valid gives HTTP 400 and leaves the registry empty. -/
theorem C4_admit_timeout_behaviour_witness :
    (add_torrent [] [] c4Hash (fun _ => false) (fun _ => false)).1 =
      .badRequest "Failed to get valid torrent handle" ∧
    (add_torrent [] [] c4Hash (fun _ => false) (fun _ => false)).2.2 = [] :=
  (C4_admit_timeout_behaviour [] [] c4Hash (fun _ => false) (fun _ => false)).1
    (by decide)

end Plays96
